import Mathlib

/-!
Verification of the impact-ESG-aware portfolio-selection notebook.

The notebook builds an instrument universe (NACE sector-code extraction and
an ESG-score filter), converts daily closing prices into simple returns and
an empirical covariance matrix, and solves three constrained minimization
problems over the probability simplex (minimum volatility; volatility
balanced with return and ESG score; volatility balanced with return and the
impact-ESG score).  Vectors are embedded as lists of rationals; the handoff
to the external nonlinear solver is embedded as the data of the call the
notebook constructs (objective coefficients, initial guess, bounds).
-/

namespace ImpactESG

/-- Dot product of two equally long rational vectors, `numpy.dot` on 1-d
arrays (extra trailing entries of the longer list are ignored, as we only
ever use equal lengths). -/
def dot (a b : List ℚ) : ℚ := (List.zipWith (fun x y => x * y) a b).sum

/-- Matrix-vector product `numpy.dot(covMatrix, weights)`: one dot product
per row. -/
def matVec (m : List (List ℚ)) (w : List ℚ) : List ℚ :=
  m.map (fun row => dot row w)

/-- `risk_measure(covMatrix, weights)` from the notebook:
`numpy.dot(weights, numpy.dot(covMatrix, weights))`. -/
def risk_measure (covMatrix : List (List ℚ)) (weights : List ℚ) : ℚ :=
  dot weights (matVec covMatrix weights)

/-- `esg_bound = 70`, the lower ESG bound enforced on the universe and used
in the impact-ESG formula. -/
def esg_bound : ℚ := 70

/-- Objective passed to `sco.minimize` for the plain minimum-volatility
portfolio: `lambda x: risk_measure(covMatrix, x)`. -/
def mvp_objective (covMatrix : List (List ℚ)) (x : List ℚ) : ℚ :=
  risk_measure covMatrix x

/-- Objective of the return/ESG-balanced problem:
`lambda x: risk_measure(covMatrix, x) - 0.0002*numpy.dot(x, returns.sum())
- 0.00002*numpy.dot(x, df_esg_constraint['esg'])`.  `retSum` is the
per-instrument sum of period returns, `esgVec` the ESG-score vector. -/
def esg_ret_objective (covMatrix : List (List ℚ)) (retSum esgVec : List ℚ)
    (x : List ℚ) : ℚ :=
  risk_measure covMatrix x - 0.0002 * dot x retSum - 0.00002 * dot x esgVec

/-- Objective of the return/impact-ESG-balanced problem:
`lambda x: risk_measure(covMatrix, x) - 0.0002*numpy.dot(x, returns.sum())
- 0.000004*numpy.dot(x, impact_esg_score(df_esg_constraint))`. -/
def impact_esg_objective (covMatrix : List (List ℚ)) (retSum impactVec : List ℚ)
    (x : List ℚ) : ℚ :=
  risk_measure covMatrix x - 0.0002 * dot x retSum - 0.000004 * dot x impactVec

/-- Modelled from the spec (Objective Composer): the generic three-term
blend `objective(w) = risk(w) - returnCoef * (w . totalReturn) -
scoreCoef * (w . scoreVector)`, against which the notebook objectives are
compared. -/
def spec_buildObjective (covMatrix : List (List ℚ)) (totalReturn scoreVec : List ℚ)
    (returnCoef scoreCoef : ℚ) (w : List ℚ) : ℚ :=
  risk_measure covMatrix w - returnCoef * dot w totalReturn
    - scoreCoef * dot w scoreVec

/-- `impact_esg_score = lambda df: df['nace_impact']*(df['esg']-esg_bound)`,
applied per instrument: the sector-impact weight times the ESG surplus over
the bound. -/
def impact_esg_score (nace_impact esg : ℚ) : ℚ :=
  nace_impact * (esg - esg_bound)

/-- C2: every notebook objective is the spec's composed objective
`risk(w) - returnCoef*(w . totalReturn) - scoreCoef*(w . scoreVector)` at
its concrete blend coefficients (0.0002 and 0.00002 for the ESG-balanced
problem, 0.0002 and 0.000004 for the impact-ESG-balanced one), and with
both coefficients zero the composed objective is the pure risk measure
`w^T C w`, i.e. the minimum-volatility objective. -/
theorem objective_composition :
    ∀ (covMatrix : List (List ℚ)) (retSum esgVec impactVec w : List ℚ),
      esg_ret_objective covMatrix retSum esgVec w
        = spec_buildObjective covMatrix retSum esgVec 0.0002 0.00002 w
      ∧ impact_esg_objective covMatrix retSum impactVec w
        = spec_buildObjective covMatrix retSum impactVec 0.0002 0.000004 w
      ∧ spec_buildObjective covMatrix retSum esgVec 0 0 w
        = mvp_objective covMatrix w := by
  intro covMatrix retSum esgVec impactVec w
  refine ⟨rfl, rfl, ?_⟩
  simp [spec_buildObjective, mvp_objective]

/-- C9: the derived impact-ESG score is the sector-impact weight times the
ESG surplus over the bound 70; ESG 85 with impact weight 10 gives 150, and
impact weight 0 gives 0 for every ESG score. -/
theorem impact_esg_formula :
    (∀ imp esg : ℚ, impact_esg_score imp esg = imp * (esg - 70))
      ∧ impact_esg_score 10 85 = 150
      ∧ (∀ esg : ℚ, impact_esg_score 0 esg = 0) := by
  refine ⟨fun imp esg => rfl, by norm_num [impact_esg_score, esg_bound],
    fun esg => by simp [impact_esg_score]⟩

/-- Arguments of one `sco.minimize` invocation as the notebook constructs
them.  The objective lambda is represented by the data it closes over: the
covariance matrix, the total-return and score vectors and the two blend
coefficients of `spec_buildObjective` (the minimum-volatility call uses
coefficients 0).  `x0` is the initial guess, `bounds` the per-component box
constraints; the single equality constraint `sum(w) - 1 = 0` is the same in
every call and is captured by `feasible` below. -/
structure MinimizeCall where
  cov : List (List ℚ)
  totalReturn : List ℚ
  scoreVec : List ℚ
  returnCoef : ℚ
  scoreCoef : ℚ
  x0 : List ℚ
  bounds : List (ℚ × ℚ)
deriving DecidableEq, Repr

/-- What the notebook does at a `sco.minimize` call site before control
passes to the external SciPy solver: either the call is handed to the
solver with the recorded arguments, or evaluating the arguments raised a
Python exception. -/
inductive SolverStep where
  | invoke : MinimizeCall → SolverStep
  | pyError : String → SolverStep
deriving DecidableEq, Repr

/-- The notebook's solver invocation pattern, common to all three
optimizations: initial guess `K * [1 / K]`, bounds `K * [(0, 1)]`,
constraint `sum(w) - 1 = 0`.  Python evaluates `1 / K` first, so `K = 0`
raises `ZeroDivisionError` before `sco.minimize` is entered; there is no
other branch, in particular no `K = 1` special case. -/
def minimize_call (K : ℕ) (cov : List (List ℚ)) (totalReturn scoreVec : List ℚ)
    (returnCoef scoreCoef : ℚ) : SolverStep :=
  if K = 0 then SolverStep.pyError "ZeroDivisionError: division by zero"
  else SolverStep.invoke
    ⟨cov, totalReturn, scoreVec, returnCoef, scoreCoef,
      List.replicate K (1 / (K : ℚ)), List.replicate K (0, 1)⟩

/-- Objective function encoded by a recorded solver call. -/
def call_objective (c : MinimizeCall) : List ℚ → ℚ :=
  spec_buildObjective c.cov c.totalReturn c.scoreVec c.returnCoef c.scoreCoef

/-- Feasible region the notebook passes to the solver for a `K`-instrument
problem: `K` components, box constraints `(0, 1)` each, and the equality
constraint `weights.sum() - 1 = 0`. -/
def feasible (K : ℕ) (w : List ℚ) : Prop :=
  w.length = K ∧ (∀ x ∈ w, 0 ≤ x ∧ x ≤ 1) ∧ w.sum = 1

/-- A vector optimal for objective `f` over the `K`-simplex. -/
def IsOptimal (f : List ℚ → ℚ) (K : ℕ) (w : List ℚ) : Prop :=
  feasible K w ∧ ∀ v, feasible K v → f w ≤ f v

theorem feasible_one_unique (v : List ℚ) (hv : feasible 1 v) : v = [1] := by
  obtain ⟨hlen, _, hsum⟩ := hv
  obtain ⟨a, rfl⟩ := List.length_eq_one.mp hlen
  simp only [List.sum_cons, List.sum_nil, add_zero] at hsum
  rw [hsum]

theorem feasible_one_one : feasible 1 ([1] : List ℚ) := by
  refine ⟨rfl, ?_, by simp⟩
  intro x hx
  simp only [List.mem_singleton] at hx
  subst hx
  exact ⟨zero_le_one, le_refl 1⟩

theorem score_le_of_coef_lt (cov : List (List ℚ)) (ret score : List ℚ)
    (rc c1 c2 : ℚ) (K : ℕ) (w1 w2 : List ℚ) (hc : c1 < c2)
    (h1 : IsOptimal (spec_buildObjective cov ret score rc c1) K w1)
    (h2 : IsOptimal (spec_buildObjective cov ret score rc c2) K w2) :
    dot w1 score ≤ dot w2 score := by
  have a1 := h1.2 w2 h2.1
  have a2 := h2.2 w1 h1.1
  simp only [spec_buildObjective] at a1 a2
  by_contra hlt
  push_neg at hlt
  nlinarith [mul_pos (sub_pos.mpr hc) (sub_pos.mpr hlt)]

/-- C3: with the covariance matrix, total-return vector, score vector and
return coefficient held fixed, along any strictly increasing sequence of
score coefficients the portfolio score `w . scoreVector` of optimal weight
vectors is monotonically non-decreasing. -/
theorem score_monotone_in_scoreCoef (cov : List (List ℚ)) (ret score : List ℚ)
    (rc : ℚ) (K : ℕ) (c : ℕ → ℚ) (w : ℕ → List ℚ) (hc : StrictMono c)
    (hw : ∀ n, IsOptimal (spec_buildObjective cov ret score rc (c n)) K (w n)) :
    Monotone (fun n => dot (w n) score) := by
  apply monotone_nat_of_le_succ
  intro n
  exact score_le_of_coef_lt cov ret score rc (c n) (c (n + 1)) K (w n) (w (n + 1))
    (hc (Nat.lt_succ_self n)) (hw n) (hw (n + 1))

/-- Witness for C3 at a concrete one-instrument problem: covariance
`[[1]]`, total return `[0]`, score vector `[5]`, return coefficient 0,
score coefficients `0, 1, 2, ...`; the unique feasible (hence optimal)
vector is always `[1]`. -/
theorem score_monotone_in_scoreCoef_witness :
    Monotone (fun _ : ℕ => dot [(1 : ℚ)] [(5 : ℚ)]) := by
  have hopt : ∀ n : ℕ,
      IsOptimal (spec_buildObjective [[1]] [0] [5] 0 ((n : ℚ))) 1 [1] := by
    intro n
    refine ⟨feasible_one_one, ?_⟩
    intro v hv
    rw [feasible_one_unique v hv]
  exact score_monotone_in_scoreCoef [[1]] [0] [5] 0 1 (fun n => (n : ℚ))
    (fun _ => [1]) Nat.strictMono_cast hopt

/-- C4 counterexample: with exactly one instrument the notebook does not
short-circuit; the `sco.minimize` call site at `K = 1` hands the problem to
the general solver (initial guess `[1.0]`, bounds `[(0, 1)]`), refuting
"returns the weight vector [1] ... without invoking the general nonlinear
solver". -/
theorem solver_invoked_at_K1 :
    minimize_call 1 [[1]] [0] [0] 0 0
      = SolverStep.invoke ⟨[[1]], [0], [0], 0, 0, [1], [(0, 1)]⟩ := by
  norm_num [minimize_call]

/-- C4 amended: at `K = 1` the notebook invokes the general solver exactly
as for any other `K`, with initial guess `[1]` (the replicated `1/K`) and
bounds `[(0, 1)]`; the feasible region of the invoked problem contains
exactly the vector `[1]`. -/
theorem k1_invocation :
    (∀ (cov : List (List ℚ)) (ret score : List ℚ) (rc sc : ℚ),
        minimize_call 1 cov ret score rc sc
          = SolverStep.invoke ⟨cov, ret, score, rc, sc, [1], [(0, 1)]⟩)
      ∧ (∀ w : List ℚ, feasible 1 w ↔ w = [1]) := by
  constructor
  · intro cov ret score rc sc
    simp [minimize_call]
  · intro w
    constructor
    · exact feasible_one_unique w
    · intro hw
      rw [hw]
      exact feasible_one_one

/-- C5: with an empty universe (`K = 0`) the notebook fails before the
solver is invoked, but via the `ZeroDivisionError` that Python raises while
evaluating the initial guess `K * [1 / K]` — not via an explicit emptiness
check with a descriptive error. -/
theorem zero_universe_zero_division :
    ∀ (cov : List (List ℚ)) (ret score : List ℚ) (rc sc : ℚ),
      minimize_call 0 cov ret score rc sc
        = SolverStep.pyError "ZeroDivisionError: division by zero" := by
  intro cov ret score rc sc
  rfl

/-- Value of one cell of the returns frame, with the IEEE special values
that `pct_change` can produce: a finite rational, positive or negative
infinity, or NaN (pandas' missing marker for float columns). -/
inductive RVal where
  | val : ℚ → RVal
  | pinf : RVal
  | ninf : RVal
  | nan : RVal
deriving DecidableEq, Repr

/-- One period-over-period simple return, `cur / prev - 1` with float
semantics: a zero previous price gives `+inf`, `-inf` or `NaN` according to
the sign of the current price. -/
def pct_one (prev cur : ℚ) : RVal :=
  if prev = 0 then
    (if 0 < cur then RVal.pinf else if cur < 0 then RVal.ninf else RVal.nan)
  else RVal.val ((cur - prev) / prev)

/-- Returns of the second and later rows, each computed against the
previous price row. -/
def pct_rest (prev : List ℚ) : List (List ℚ) → List (List RVal)
  | [] => []
  | cur :: rest => List.zipWith pct_one prev cur :: pct_rest cur rest

/-- `timeseries_data.pct_change()`: rows are periods, columns instruments;
the first row is all-NaN (no predecessor). -/
def pct_change : List (List ℚ) → List (List RVal)
  | [] => []
  | r :: rest => r.map (fun _ => RVal.nan) :: pct_rest r rest

/-- `.replace(numpy.inf, numpy.nan)`: only positive infinity is replaced. -/
def replace_inf (x : RVal) : RVal :=
  if x = RVal.pinf then RVal.nan else x

/-- Whether a returns row contains the missing marker. -/
def row_has_nan (r : List RVal) : Bool :=
  r.any (fun x => x == RVal.nan)

/-- `returns = timeseries_data.pct_change().replace(numpy.inf,
numpy.nan).dropna()`: replace positive infinities by NaN, then drop every
row containing a NaN.  The result is the frame the notebook feeds to
`.cov()`. -/
def returns_clean (rows : List (List ℚ)) : List (List RVal) :=
  ((pct_change rows).map (fun r => r.map replace_inf)).filter
    (fun r => !row_has_nan r)

/-- Whether a cell holds an ordinary finite value. -/
def is_val : RVal → Bool
  | RVal.val _ => true
  | _ => false

@[simp] theorem replace_inf_val (q : ℚ) :
    replace_inf (RVal.val q) = RVal.val q := rfl

@[simp] theorem replace_inf_pinf : replace_inf RVal.pinf = RVal.nan := rfl

@[simp] theorem replace_inf_ninf : replace_inf RVal.ninf = RVal.ninf := rfl

@[simp] theorem replace_inf_nan : replace_inf RVal.nan = RVal.nan := rfl

@[simp] theorem val_beq_nan (q : ℚ) : (RVal.val q == RVal.nan) = false := rfl

@[simp] theorem ninf_beq_nan : (RVal.ninf == RVal.nan) = false := rfl

@[simp] theorem pinf_beq_nan : (RVal.pinf == RVal.nan) = false := rfl

@[simp] theorem nan_beq_nan : (RVal.nan == RVal.nan) = true := rfl

/-- C7 counterexample: the price series `1, 0, -1` (a zero price followed
by a negative one) produces a `-inf` return; `.replace(numpy.inf,
numpy.nan)` replaces only `+inf`, so the `-inf` row survives `dropna()` and
reaches the covariance computation. -/
theorem neg_inf_survives_cleaning :
    returns_clean [[1], [0], [-1]] = [[RVal.val (-1)], [RVal.ninf]]
      ∧ ¬ (∀ r ∈ returns_clean [[1], [0], [-1]], ∀ x ∈ r, is_val x = true) := by
  have h0 : pct_one (1 : ℚ) 0 = RVal.val (-1) := by
    norm_num [pct_one]
  have h1 : pct_one (0 : ℚ) (-1) = RVal.ninf := by
    norm_num [pct_one]
  have heval : returns_clean [[1], [0], [-1]] = [[RVal.val (-1)], [RVal.ninf]] := by
    simp [returns_clean, pct_change, pct_rest, h0, h1, row_has_nan, List.filter]
  refine ⟨heval, ?_⟩
  intro h
  have h2 := h [RVal.ninf] (by rw [heval]; simp) RVal.ninf (by simp)
  simp [is_val] at h2

theorem mem_zipWith_pct {x : RVal} :
    ∀ {a b : List ℚ}, x ∈ List.zipWith pct_one a b →
      ∃ p c, p ∈ a ∧ c ∈ b ∧ x = pct_one p c := by
  intro a
  induction a with
  | nil => intro b h; simp at h
  | cons p ps ih =>
    intro b h
    cases b with
    | nil => simp at h
    | cons c cs =>
      simp only [List.zipWith_cons_cons, List.mem_cons] at h
      rcases h with h | h
      · exact ⟨p, c, List.mem_cons_self p ps, List.mem_cons_self c cs, h⟩
      · obtain ⟨p2, c2, hp, hc, hx⟩ := ih h
        exact ⟨p2, c2, List.mem_cons_of_mem p hp, List.mem_cons_of_mem c hc, hx⟩

theorem pct_one_ne_ninf {prev cur : ℚ} (hc : 0 ≤ cur) :
    pct_one prev cur ≠ RVal.ninf := by
  unfold pct_one
  split
  · split
    · intro hcontra
      exact RVal.noConfusion hcontra
    · rw [if_neg (not_lt.mpr hc)]
      intro hcontra
      exact RVal.noConfusion hcontra
  · intro hcontra
    exact RVal.noConfusion hcontra

theorem pct_rest_no_ninf (rows : List (List ℚ)) :
    ∀ prev, (∀ r ∈ rows, ∀ p ∈ r, 0 ≤ p) →
      ∀ r ∈ pct_rest prev rows, ∀ x ∈ r, x ≠ RVal.ninf := by
  induction rows with
  | nil => intro prev _ r hr; simp [pct_rest] at hr
  | cons cur rest ih =>
    intro prev hrows r hr x hx
    simp only [pct_rest, List.mem_cons] at hr
    rcases hr with rfl | hr
    · obtain ⟨p, c, hp, hc, rfl⟩ := mem_zipWith_pct hx
      exact pct_one_ne_ninf (hrows cur (List.mem_cons_self cur rest) c hc)
    · exact ih cur
        (fun row hrow => hrows row (List.mem_cons_of_mem cur hrow)) r hr x hx

theorem pct_change_no_ninf (rows : List (List ℚ))
    (h : ∀ r ∈ rows, ∀ p ∈ r, 0 ≤ p) :
    ∀ r ∈ pct_change rows, ∀ x ∈ r, x ≠ RVal.ninf := by
  cases rows with
  | nil => intro r hr; simp [pct_change] at hr
  | cons r0 rest =>
    intro r hr x hx
    simp only [pct_change, List.mem_cons] at hr
    rcases hr with rfl | hr
    · simp only [List.mem_map] at hx
      obtain ⟨_, _, rfl⟩ := hx
      simp
    · exact pct_rest_no_ninf rest r0
        (fun row hrow => h row (List.mem_cons_of_mem r0 hrow)) r hr x hx

/-- C7 amended: for a price series with non-negative prices, every infinite
value arising from division by a zero price is `+inf` or `NaN`; the `+inf`
is converted to the missing marker and the containing period dropped, so
every cell that reaches the covariance computation is finite.  (With a
negative price after a zero price a `-inf` arises and is propagated, as the
counterexample shows.) -/
theorem nonneg_prices_clean_finite (rows : List (List ℚ))
    (h : ∀ r ∈ rows, ∀ p ∈ r, 0 ≤ p) :
    ∀ r ∈ returns_clean rows, ∀ x ∈ r, is_val x = true := by
  intro r hr x hx
  simp only [returns_clean, List.mem_filter, List.mem_map] at hr
  obtain ⟨⟨r0, hr0, rfl⟩, hnonan⟩ := hr
  simp only [List.mem_map] at hx
  obtain ⟨y, hy, rfl⟩ := hx
  have hyn : y ≠ RVal.ninf := pct_change_no_ninf rows h r0 hr0 y hy
  have hxnan : replace_inf y ≠ RVal.nan := by
    intro hcontra
    rw [Bool.not_eq_true'] at hnonan
    have : row_has_nan (r0.map replace_inf) = true := by
      simp only [row_has_nan, List.any_eq_true]
      exact ⟨replace_inf y, List.mem_map_of_mem replace_inf hy,
        by rw [hcontra]; rfl⟩
    rw [this] at hnonan
    exact Bool.noConfusion hnonan
  cases y with
  | val q => rfl
  | pinf => exact absurd rfl hxnan
  | ninf => exact absurd rfl hyn
  | nan => exact absurd rfl hxnan

/-- Witness for C7 on the non-negative price series `1, 0, 2`: the `+inf`
created by the zero price is replaced and its period dropped; the one
surviving cell, `-1`, is finite, as the amended theorem instantiated at
this series shows. -/
theorem nonneg_prices_clean_finite_witness :
    is_val (RVal.val (-1)) = true := by
  have h0 : pct_one (1 : ℚ) 0 = RVal.val (-1) := by
    norm_num [pct_one]
  have h1 : pct_one (0 : ℚ) 2 = RVal.pinf := by
    norm_num [pct_one]
  have heval : returns_clean [[1], [0], [2]] = [[RVal.val (-1)]] := by
    simp [returns_clean, pct_change, pct_rest, h0, h1, row_has_nan, List.filter]
  exact nonneg_prices_clean_finite [[1], [0], [2]] (by norm_num)
    [RVal.val (-1)] (by rw [heval]; simp) (RVal.val (-1)) (by simp)

/-- One instrument row of `df_esg`: identifier, ESG score, and the raw
NACE classification string. -/
structure Instr where
  ric : String
  esg : ℚ
  nace : String
deriving DecidableEq, Repr

/-- Normalization of a Python slice index against a string of `n`
characters: negative indices count from the end, and both are clamped to
`[0, n]`. -/
def pyNormIdx (n : ℕ) (i : Int) : ℕ :=
  if i < 0 then ((n : Int) + i).toNat else min i.toNat n

/-- Python string slice `s[a:b]` (step 1). -/
def pySlice (s : String) (a b : Int) : String :=
  String.mk ((s.data.drop (pyNormIdx s.data.length a)).take
    (pyNormIdx s.data.length b - pyNormIdx s.data.length a))

/-- `df_instr['nace'][-6:-4]`: the NACE division code extracted from the
classification string. -/
def nace_code (i : Instr) : String := pySlice i.nace (-6) (-4)

/-- `df_esg_nace`: each instrument paired with its extracted code, keeping
only rows with a non-empty code
(`...[df_nace['nace_code'].map(len)>0]`). -/
def df_esg_nace (univ : List Instr) : List (Instr × String) :=
  (univ.map (fun i => (i, nace_code i))).filter
    (fun p => decide (0 < p.2.length))

/-- `df_esg_constraint = df_esg_nace[(df_esg_nace.esg >= esg_bound)]`. -/
def df_esg_constraint (univ : List Instr) : List (Instr × String) :=
  (df_esg_nace univ).filter (fun p => decide (esg_bound ≤ p.1.esg))

theorem mem_df_esg_constraint (univ : List Instr) (i : Instr) (code : String) :
    (i, code) ∈ df_esg_constraint univ ↔
      i ∈ univ ∧ code = nace_code i ∧ 0 < code.length ∧ esg_bound ≤ i.esg := by
  simp only [df_esg_constraint, df_esg_nace, List.mem_filter, List.mem_map,
    List.filter_filter, decide_eq_true_eq, Bool.and_eq_true, Prod.mk.injEq]
  constructor
  · rintro ⟨⟨j, hj, rfl, rfl⟩, hb, hlen⟩
    exact ⟨hj, rfl, hlen, hb⟩
  · rintro ⟨hi, rfl, hlen, hb⟩
    exact ⟨⟨i, hi, rfl, rfl⟩, hb, hlen⟩

/-- C8: an instrument is admitted to the optimization universe exactly when
the Python slice `[-6:-4]` of its classification string is non-empty and
its ESG score is at least `esg_bound = 70`, and the sector code recorded
with it is exactly that slice. -/
theorem universe_filter_membership (univ : List Instr) (i : Instr)
    (code : String) :
    (i, code) ∈ df_esg_constraint univ ↔
      i ∈ univ ∧ code = pySlice i.nace (-6) (-4) ∧ 0 < code.length
        ∧ (70 : ℚ) ≤ i.esg :=
  mem_df_esg_constraint univ i code

/-- The keys of `nace_dict`, the NACE division-label table: the divisions
of NACE Rev. 2 (note the gaps: 04, 34, 40, 44, 48, 54, 57, 67, 76, 83 and
89 are not NACE divisions) plus the placeholder key `nan`. -/
def nace_dict_keys : List String :=
  ["01", "02", "03", "05", "06", "07", "08", "09", "10", "11", "12", "13",
   "14", "15", "16", "17", "18", "19", "20", "21", "22", "23", "24", "25",
   "26", "27", "28", "29", "30", "31", "32", "33", "35", "36", "37", "38",
   "39", "41", "42", "43", "45", "46", "47", "49", "50", "51", "52", "53",
   "55", "56", "58", "59", "60", "61", "62", "63", "64", "65", "66", "68",
   "69", "70", "71", "72", "73", "74", "75", "77", "78", "79", "80", "81",
   "82", "84", "85", "86", "87", "88", "90", "91", "92", "93", "94", "95",
   "96", "97", "98", "99", "nan"]

/-- `nace_impact_dict = {key: 0 for key in nace_dict.keys()}` followed by
`nace_impact_dict['41'] = 10`: every NACE-table sector gets impact weight
0 except division 41 (construction of buildings), which gets 10. -/
def nace_impact_dict : List (String × ℚ) :=
  (nace_dict_keys.map (fun k => (k, (0 : ℚ)))).map
    (fun p => if p.1 = "41" then (p.1, 10) else p)

/-- Python dict read `d[k]`: `some` of the stored value, `none` when the
key is absent (in which case Python raises `KeyError`). -/
def dict_get (d : List (String × ℚ)) (k : String) : Option ℚ :=
  (d.find? (fun p => p.1 == k)).map (fun p => p.2)

/-- `df_esg_constraint['nace_code'].apply(lambda x: nace_impact_dict[x])`:
element-wise dict lookup over the sector-code column, raising `KeyError`
at the first code absent from the dict. -/
def apply_impact : List String → Except String (List ℚ)
  | [] => Except.ok []
  | c :: rest =>
    match dict_get nace_impact_dict c with
    | some v => (apply_impact rest).map (fun vs => v :: vs)
    | none => Except.error (String.append "KeyError: " c)

/-- C6 counterexample: `40` is a syntactically valid two-character sector
code absent from the impact-weight table (40 is not a NACE division), and
looking it up raises `KeyError` instead of defaulting to impact weight 0. -/
theorem missing_sector_keyerror :
    dict_get nace_impact_dict "40" = none
      ∧ apply_impact ["40"] = Except.error "KeyError: 40"
      ∧ apply_impact ["40"] ≠ Except.ok [0] := by
  refine ⟨rfl, rfl, ?_⟩
  intro hcontra
  rw [show apply_impact ["40"] = Except.error "KeyError: 40" from rfl] at hcontra
  exact Except.noConfusion hcontra

theorem nace_impact_fst_mem {p : String × ℚ} (hp : p ∈ nace_impact_dict) :
    p.1 ∈ nace_dict_keys := by
  simp only [nace_impact_dict, List.mem_map] at hp
  obtain ⟨q, hq, rfl⟩ := hp
  obtain ⟨k, hk, rfl⟩ := hq
  split
  · exact hk
  · exact hk

theorem dict_get_absent {k : String} (hk : k ∉ nace_dict_keys) :
    dict_get nace_impact_dict k = none := by
  have hnone : nace_impact_dict.find? (fun p => p.1 == k) = none := by
    rw [List.find?_eq_none]
    intro p hp
    simp only [beq_eq_false_iff_ne, ne_eq, beq_iff_eq]
    intro hcontra
    exact hk (hcontra ▸ nace_impact_fst_mem hp)
  simp [dict_get, hnone]

/-- C6 amended: only sector codes that are keys of the NACE label table get
an impact weight, namely 0 for every division except 41 (which gets 10) and
0 for the `nan` placeholder; a sector code absent from the table raises a
`KeyError` when the impact column is derived, rather than being treated as
impact 0. -/
theorem impact_lookup_behavior :
    (∀ k ∈ nace_dict_keys,
        dict_get nace_impact_dict k = some (if k = "41" then 10 else 0))
      ∧ (∀ k : String, k ∉ nace_dict_keys →
        apply_impact [k] = Except.error (String.append "KeyError: " k)) := by
  constructor
  · decide
  · intro k hk
    simp [apply_impact, dict_get_absent hk]

/-- Witness for C6 at the concrete codes `01` (in the table, impact 0) and
`40` (absent, `KeyError`). -/
theorem impact_lookup_behavior_witness :
    dict_get nace_impact_dict "01" = some 0
      ∧ apply_impact ["40"] = Except.error (String.append "KeyError: " "40") := by
  constructor
  · have h := impact_lookup_behavior.1 "01" (by decide)
    simpa using h
  · exact impact_lookup_behavior.2 "40" (by decide)

theorem nace_impact_snd_cases {p : String × ℚ} (hp : p ∈ nace_impact_dict) :
    p.2 = 0 ∨ p.2 = 10 := by
  simp only [nace_impact_dict, List.mem_map] at hp
  obtain ⟨q, hq, rfl⟩ := hp
  obtain ⟨k, hk, rfl⟩ := hq
  split
  · exact Or.inr rfl
  · exact Or.inl rfl

theorem dict_get_nonneg {k : String} {v : ℚ}
    (h : dict_get nace_impact_dict k = some v) : 0 ≤ v := by
  simp only [dict_get, Option.map_eq_some'] at h
  obtain ⟨p, hp, rfl⟩ := h
  rcases nace_impact_snd_cases (List.mem_of_find?_eq_some hp) with h0 | h10
  · rw [h0]
  · rw [h10]; norm_num

theorem dot_nonneg_of_nonneg :
    ∀ (w s : List ℚ), (∀ x ∈ w, 0 ≤ x) → (∀ x ∈ s, 0 ≤ x) → 0 ≤ dot w s := by
  intro w
  induction w with
  | nil => intro s _ _; simp [dot]
  | cons a as ih =>
    intro s hw hs
    cases s with
    | nil => simp [dot]
    | cons b bs =>
      have h1 : 0 ≤ a * b :=
        mul_nonneg (hw a (List.mem_cons_self a as))
          (hs b (List.mem_cons_self b bs))
      have h2 : 0 ≤ dot as bs :=
        ih bs (fun x hx => hw x (List.mem_cons_of_mem a hx))
          (fun x hx => hs x (List.mem_cons_of_mem b hx))
      simpa [dot] using add_nonneg h1 h2

/-- C10: every impact weight stored in the table is non-negative; every
instrument admitted to the filtered universe has ESG score at least 70, so
whenever its sector code resolves to an impact weight `v` the derived
impact-ESG score `v * (esg - 70)` is non-negative; and the impact-ESG score
of any portfolio with non-negative weights over non-negative instrument
scores is itself non-negative. -/
theorem impact_esg_nonneg :
    (∀ p ∈ nace_impact_dict, 0 ≤ p.2)
      ∧ (∀ (univ : List Instr) (i : Instr) (code : String) (v : ℚ),
          (i, code) ∈ df_esg_constraint univ →
          dict_get nace_impact_dict code = some v →
          (70 : ℚ) ≤ i.esg ∧ 0 ≤ impact_esg_score v i.esg)
      ∧ (∀ w s : List ℚ,
          (∀ x ∈ w, 0 ≤ x) → (∀ x ∈ s, 0 ≤ x) → 0 ≤ dot w s) := by
  refine ⟨?_, ?_, dot_nonneg_of_nonneg⟩
  · intro p hp
    rcases nace_impact_snd_cases hp with h0 | h10
    · rw [h0]
    · rw [h10]; norm_num
  · intro univ i code v hmem hget
    have hesg : (70 : ℚ) ≤ i.esg :=
      ((mem_df_esg_constraint univ i code).mp hmem).2.2.2
    refine ⟨hesg, ?_⟩
    have hv : 0 ≤ v := dict_get_nonneg hget
    have hsub : 0 ≤ i.esg - esg_bound := by
      simp only [esg_bound]
      linarith
    simpa [impact_esg_score] using mul_nonneg hv hsub

/-- Witness for C10 at a concrete construction-sector instrument (ESG 85,
NACE string ending in `(41.10)`, impact weight 10) and a concrete
two-component portfolio. -/
theorem impact_esg_nonneg_witness :
    ((70 : ℚ) ≤ (85 : ℚ) ∧ 0 ≤ impact_esg_score 10 85)
      ∧ 0 ≤ dot [1 / 2, 1 / 2] [150, 0] := by
  constructor
  · exact impact_esg_nonneg.2.1
      [⟨"ACME.X", 85, "Construction of buildings (NACE) (41.10)"⟩]
      ⟨"ACME.X", 85, "Construction of buildings (NACE) (41.10)"⟩ "41" 10
      (by decide) (by decide)
  · refine impact_esg_nonneg.2.2 [1 / 2, 1 / 2] [150, 0] ?_ ?_
    · intro x hx
      rcases List.mem_cons.mp hx with rfl | hx2
      · norm_num
      · rcases List.mem_cons.mp hx2 with rfl | hx3
        · norm_num
        · simp at hx3
    · intro x hx
      rcases List.mem_cons.mp hx with rfl | hx2
      · norm_num
      · rcases List.mem_cons.mp hx2 with rfl | hx3
        · norm_num
        · simp at hx3

end ImpactESG
